import Mathlib

/-!
Verification of the tic-tac-toe core in `src/main.rs` (modules `bitboard`
and `tictactoe`).

Modelling conventions:
* Rust `usize` is modelled as `Nat`.  Every bitwise operation the core
  performs (`|`, `&`, `^`, `<<`, `>>`) agrees with 64-bit `usize` as long
  as no operand reaches `2 ^ 64`; on the values the program manipulates
  (9-bit cell masks, shift amounts `0..8`) this is exact.
* The one arithmetic operation where the `Nat`/`usize` difference matters
  is the subtraction `placement - 1` in `make_play`.  On `usize` this
  underflows when `placement = 0`: with overflow checks enabled (the
  default dev profile) the program panics there; in release builds it
  wraps to `usize::MAX`.  We model the checked semantics explicitly: the
  result type `MakePlayResult` has a dedicated `panicked` constructor
  produced exactly when the underflow is hit.
* Field and function names follow the Rust source.
-/

namespace RustyTacToe

/-- `bitboard::BitBoard`: a wrapper around one `usize`. -/
structure BitBoard where
  board : Nat
deriving DecidableEq

/-- `BitBoard::new`: the zero mask. -/
def BitBoard.new : BitBoard := ⟨0⟩

/-- `BitBoard::with_bits`. -/
def BitBoard.with_bits (board : Nat) : BitBoard := ⟨board⟩

/-- `impl BitAnd for BitBoard`. -/
def BitBoard.band (a b : BitBoard) : BitBoard := ⟨a.board &&& b.board⟩

/-- `impl BitOr for BitBoard`. -/
def BitBoard.bor (a b : BitBoard) : BitBoard := ⟨a.board ||| b.board⟩

/-- `impl BitXor for BitBoard`. -/
def BitBoard.bxor (a b : BitBoard) : BitBoard := ⟨a.board ^^^ b.board⟩

/-- `impl BitAnd<usize> for BitBoard`. -/
def BitBoard.bandU (a : BitBoard) (rhs : Nat) : BitBoard := ⟨a.board &&& rhs⟩

/-- `impl BitOr<usize> for BitBoard`. -/
def BitBoard.borU (a : BitBoard) (rhs : Nat) : BitBoard := ⟨a.board ||| rhs⟩

/-- `impl Shl<usize> for BitBoard`. -/
def BitBoard.shl (a : BitBoard) (rhs : Nat) : BitBoard := ⟨a.board <<< rhs⟩

/-- `impl Shr<usize> for BitBoard`. -/
def BitBoard.shr (a : BitBoard) (rhs : Nat) : BitBoard := ⟨a.board >>> rhs⟩

/-- `BitBoard::get_bit`: `(self.board >> bit) & 1`. -/
def BitBoard.get_bit (a : BitBoard) (bit : Nat) : Nat := (a.board >>> bit) &&& 1

/-- `tictactoe::FILLED_BOARD`. -/
def FILLED_BOARD : BitBoard := BitBoard.with_bits 0b111111111

/-- `tictactoe::EMPTY_BOARD`. -/
def EMPTY_BOARD : BitBoard := BitBoard.with_bits 0

/-- `tictactoe::WON_BOARDS`: the fixed table of eight win-line masks. -/
def WON_BOARDS : List BitBoard := [
  BitBoard.with_bits 0b111000000,
  BitBoard.with_bits 0b000111000,
  BitBoard.with_bits 0b000000111,
  BitBoard.with_bits 0b100100100,
  BitBoard.with_bits 0b010010010,
  BitBoard.with_bits 0b001001001,
  BitBoard.with_bits 0b100010001,
  BitBoard.with_bits 0b001010100]

/-- `tictactoe::TicTacToeBoard`: one mask per player. -/
structure TicTacToeBoard where
  x_board : BitBoard
  o_board : BitBoard
deriving DecidableEq

/-- `TicTacToeBoard::new` (also its `Default`): both masks zero. -/
def TicTacToeBoard.new : TicTacToeBoard := ⟨BitBoard.new, BitBoard.new⟩

/-- `TicTacToeBoard::is_empty`. -/
def TicTacToeBoard.is_empty (b : TicTacToeBoard) : Bool :=
  decide (b.x_board.bor b.o_board = EMPTY_BOARD)

/-- `TicTacToeBoard::is_filled`. -/
def TicTacToeBoard.is_filled (b : TicTacToeBoard) : Bool :=
  decide (b.x_board.bor b.o_board = FILLED_BOARD)

/-- `TicTacToeBoard::already_played`:
`(self.x_board | self.o_board) & (1 << placement) != EMPTY_BOARD`. -/
def TicTacToeBoard.already_played (b : TicTacToeBoard) (placement : Nat) : Bool :=
  decide ((b.x_board.bor b.o_board).bandU (1 <<< placement) ≠ EMPTY_BOARD)

/-- `TicTacToeBoard::place_on_x_board`. -/
def TicTacToeBoard.place_on_x_board (b : TicTacToeBoard) (placement : Nat) :
    Option TicTacToeBoard :=
  if b.already_played placement then none
  else some ⟨b.x_board.borU (1 <<< placement), b.o_board⟩

/-- `TicTacToeBoard::place_on_o_board`. -/
def TicTacToeBoard.place_on_o_board (b : TicTacToeBoard) (placement : Nat) :
    Option TicTacToeBoard :=
  if b.already_played placement then none
  else some ⟨b.x_board, b.o_board.borU (1 <<< placement)⟩

/-- `TicTacToeBoard::get_bit_boards`. -/
def TicTacToeBoard.get_bit_boards (b : TicTacToeBoard) : BitBoard × BitBoard :=
  (b.x_board, b.o_board)

/-- `tictactoe::PlayerSign`. -/
inductive PlayerSign where
  | X
  | O
deriving DecidableEq

/-- `tictactoe::GameStatus`. -/
inductive GameStatus where
  | XWon
  | OWon
  | Draw
  | StillGoing
deriving DecidableEq

/-- `tictactoe::TicTacToeGame`. -/
structure TicTacToeGame where
  board : TicTacToeBoard
  current_player : PlayerSign
  status : GameStatus
deriving DecidableEq

/-- `TicTacToeGame::new` (also its `Default`): empty board, X to move,
status `StillGoing`. -/
def TicTacToeGame.new : TicTacToeGame :=
  ⟨TicTacToeBoard.new, PlayerSign.X, GameStatus.StillGoing⟩

/-- `TicTacToeGame::current_status`: returns the cached `status` field. -/
def TicTacToeGame.current_status (g : TicTacToeGame) : GameStatus := g.status

/-- `TicTacToeGame::is_over`: `current_status() != StillGoing`. -/
def TicTacToeGame.is_over (g : TicTacToeGame) : Bool :=
  decide (g.current_status ≠ GameStatus.StillGoing)

/-- `TicTacToeGame::get_status`: scan `WON_BOARDS` for X, then for O
(`List.any` renders the early-returning `for` loops), then the filled
check for a draw. -/
def TicTacToeGame.get_status (g : TicTacToeGame) : GameStatus :=
  if WON_BOARDS.any (fun bs => decide (g.board.x_board.band bs = bs)) then
    GameStatus.XWon
  else if WON_BOARDS.any (fun bs => decide (g.board.o_board.band bs = bs)) then
    GameStatus.OWon
  else if g.board.is_filled then
    GameStatus.Draw
  else
    GameStatus.StillGoing

/-- `TicTacToeGame::get_current_player`. -/
def TicTacToeGame.get_current_player (g : TicTacToeGame) : PlayerSign :=
  g.current_player

/-- `TicTacToeGame::get_moves`: the `for b in 0..9` loop pushing every `b`
whose bit in the union mask is zero, rendered as a filter of `0..9`. -/
def TicTacToeGame.get_moves (g : TicTacToeGame) : List Nat :=
  (List.range 9).filter
    (fun b => (g.board.x_board.bor g.board.o_board).get_bit b == 0)

/-- Result of one `make_play` call.  Rust returns
`Option<TicTacToeGame>`; `panicked` marks the execution that dies in the
`placement - 1` underflow before producing any value (debug-profile
overflow check). -/
inductive MakePlayResult where
  | panicked
  | noGame
  | newGame (g : TicTacToeGame)
deriving DecidableEq

/-- `usize` subtraction under the debug profile's overflow check:
`none` is the panic. -/
def checkedSub (a b : Nat) : Option Nat :=
  if b ≤ a then some (a - b) else none

/-- The `next_player` match in `make_play`. -/
def PlayerSign.other : PlayerSign → PlayerSign
  | PlayerSign.X => PlayerSign.O
  | PlayerSign.O => PlayerSign.X

/-- `TicTacToeGame::make_play`.  Guard order is the source's: recomputed
status first, then `placement > 9`, then the underflowing `placement - 1`,
then the board-level placement for the current player; on success the
candidate state is built with the swapped player and its `status` field is
overwritten with `get_status` of the candidate. -/
def TicTacToeGame.make_play (g : TicTacToeGame) (placement : Nat) :
    MakePlayResult :=
  if g.get_status ≠ GameStatus.StillGoing then
    MakePlayResult.noGame
  else if placement > 9 then
    MakePlayResult.noGame
  else
    match checkedSub placement 1 with
    | none => MakePlayResult.panicked
    | some idx =>
      match (match g.current_player with
             | PlayerSign.X => g.board.place_on_x_board idx
             | PlayerSign.O => g.board.place_on_o_board idx) with
      | none => MakePlayResult.noGame
      | some tttboard =>
        MakePlayResult.newGame ⟨tttboard, g.current_player.other,
          TicTacToeGame.get_status
            ⟨tttboard, g.current_player.other, GameStatus.StillGoing⟩⟩

/-! ## General lemmas about the embedding -/

/-- `BitBoard` values are equal exactly when their underlying words are. -/
theorem BitBoard.board_inj (a b : BitBoard) : a = b ↔ a.board = b.board :=
  ⟨congrArg BitBoard.board, fun h => by cases a; cases b; cases h; rfl⟩

/-- `get_status` reads only the board, never the player or the cached
status field. -/
theorem get_status_board_only (b : TicTacToeBoard) (p q : PlayerSign)
    (s t : GameStatus) :
    TicTacToeGame.get_status ⟨b, p, s⟩ = TicTacToeGame.get_status ⟨b, q, t⟩ :=
  rfl

/-- A word AND a single shifted bit is nonzero exactly when that bit is
set in the word. -/
theorem and_shift_ne_zero (u p : Nat) :
    (u &&& (1 <<< p) ≠ 0) ↔ u.testBit p = true := by
  rw [Nat.shiftLeft_eq, one_mul, Nat.and_two_pow]
  cases h : u.testBit p <;> simp [h, (Nat.two_pow_pos p).ne']

/-- `already_played` tests exactly the union mask's bit `placement`. -/
theorem already_played_eq_testBit (b : TicTacToeBoard) (placement : Nat) :
    b.already_played placement =
      (b.x_board.board ||| b.o_board.board).testBit placement := by
  rcases b with ⟨⟨x⟩, ⟨o⟩⟩
  show decide ((⟨(x ||| o) &&& (1 <<< placement)⟩ : BitBoard) ≠
      (⟨0⟩ : BitBoard)) = (x ||| o).testBit placement
  cases h : (x ||| o).testBit placement
  · have h0 : (x ||| o) &&& (1 <<< placement) = 0 := by
      by_contra hne
      have := (and_shift_ne_zero _ _).mp hne
      rw [h] at this
      cases this
    rw [h0]
    decide
  · exact decide_eq_true
      (fun hc => (and_shift_ne_zero _ _).mpr h (congrArg BitBoard.board hc))

/-- Inverting a successful `make_play`: the rejected-status and range
guards passed, the board placement succeeded for the current player, the
player was swapped, and the stored status is the recomputed one. -/
theorem make_play_newGame_elim {g : TicTacToeGame} {p : Nat}
    {g' : TicTacToeGame} (h : g.make_play p = MakePlayResult.newGame g') :
    g.get_status = GameStatus.StillGoing ∧ 1 ≤ p ∧ p ≤ 9 ∧
    (match g.current_player with
     | PlayerSign.X => g.board.place_on_x_board (p - 1)
     | PlayerSign.O => g.board.place_on_o_board (p - 1)) = some g'.board ∧
    g'.current_player = g.current_player.other ∧
    g'.status = g'.get_status := by
  have hst : g.get_status = GameStatus.StillGoing := by
    by_contra hne
    rw [TicTacToeGame.make_play, if_pos hne] at h
    cases h
  have hp9 : ¬ p > 9 := by
    intro hgt
    rw [TicTacToeGame.make_play, if_neg (by simp [hst]), if_pos hgt] at h
    cases h
  have hp1 : 1 ≤ p := by
    by_contra hlt
    rw [TicTacToeGame.make_play, if_neg (by simp [hst]), if_neg hp9,
      show checkedSub p 1 = none from by
        unfold checkedSub; rw [if_neg hlt]] at h
    exact MakePlayResult.noConfusion h
  have hred : g.make_play p =
      (match (match g.current_player with
              | PlayerSign.X => g.board.place_on_x_board (p - 1)
              | PlayerSign.O => g.board.place_on_o_board (p - 1)) with
       | none => MakePlayResult.noGame
       | some tttboard =>
         MakePlayResult.newGame ⟨tttboard, g.current_player.other,
           TicTacToeGame.get_status ⟨tttboard, g.current_player.other,
             GameStatus.StillGoing⟩⟩) := by
    rw [TicTacToeGame.make_play, if_neg (by simp [hst]), if_neg hp9,
      show checkedSub p 1 = some (p - 1) from by
        unfold checkedSub; rw [if_pos hp1]]
  rw [hred] at h
  cases hbd : (match g.current_player with
               | PlayerSign.X => g.board.place_on_x_board (p - 1)
               | PlayerSign.O => g.board.place_on_o_board (p - 1)) with
  | none =>
    rw [hbd] at h
    exact MakePlayResult.noConfusion h
  | some bd =>
    rw [hbd] at h
    injection h with h2
    subst h2
    exact ⟨hst, hp1, Nat.le_of_not_lt hp9, rfl, rfl, rfl⟩

/-! ## Claim theorems -/

/-- C1 (code bug evidence): the spec requires `make_play` to reject every
placement outside 1..9 with an out-of-range failure and leave the state
alone.  Placement 10 is rejected as specified, but placement 0 slips past
the `placement > 9` guard and the call dies in the `placement - 1` usize
underflow (debug-profile panic) instead of returning the rejection. -/
theorem C1_placement_zero_not_rejected :
    TicTacToeGame.make_play TicTacToeGame.new 10 = MakePlayResult.noGame ∧
    TicTacToeGame.make_play TicTacToeGame.new 0 = MakePlayResult.panicked ∧
    TicTacToeGame.make_play TicTacToeGame.new 0 ≠ MakePlayResult.noGame :=
  ⟨by decide, by decide, by decide⟩

/-- C2 (code bug evidence): contrary to the no-panic contract, every
in-progress state panics when `make_play` is handed placement 0: the
`placement > 9` guard lets 0 through and `placement - 1` underflows. -/
theorem C2_make_play_zero_panics (g : TicTacToeGame)
    (h : g.get_status = GameStatus.StillGoing) :
    g.make_play 0 = MakePlayResult.panicked := by
  rw [TicTacToeGame.make_play, if_neg (by simp [h]),
    if_neg (by decide), show checkedSub 0 1 = none from by decide]

/-- Witness for C2 at a concrete in-progress state (X already on cell
index 0, O to move). -/
theorem C2_make_play_zero_panics_witness :
    TicTacToeGame.get_status
        ⟨⟨⟨1⟩, ⟨0⟩⟩, PlayerSign.O, GameStatus.StillGoing⟩ =
      GameStatus.StillGoing ∧
    TicTacToeGame.make_play
        ⟨⟨⟨1⟩, ⟨0⟩⟩, PlayerSign.O, GameStatus.StillGoing⟩ 0 =
      MakePlayResult.panicked :=
  ⟨by decide, C2_make_play_zero_panics _ (by decide)⟩

/-- C3 counterexample: `get_moves` on the initial state returns the
0-based indices 0..8, not the 1-based placements 1..9 the claim
describes (the I/O shell adds 1 before printing). -/
theorem C3_get_moves_zero_based_cex :
    TicTacToeGame.new.get_moves = [0, 1, 2, 3, 4, 5, 6, 7, 8] ∧
    TicTacToeGame.new.get_moves ≠ [1, 2, 3, 4, 5, 6, 7, 8, 9] :=
  ⟨by decide, by decide⟩

/-- `get_bit` is zero exactly when `testBit` is false. -/
theorem get_bit_eq_zero (a : BitBoard) (b : Nat) :
    (a.get_bit b == 0) = !a.board.testBit b := by
  rcases a with ⟨n⟩
  simp only [BitBoard.get_bit, Nat.testBit_to_div_mod, Nat.and_one_is_mod,
    Nat.shiftRight_eq_div_pow]
  rcases Nat.mod_two_eq_zero_or_one (n / 2 ^ b) with h | h <;> simp [h]

/-- C3 (amended): `get_moves` returns the strictly ascending list of
0-based cell indices whose bit is clear in the union of both masks, and
is empty once the board is full. -/
theorem C3_get_moves_spec (g : TicTacToeGame) :
    List.Pairwise (· < ·) g.get_moves ∧
    (∀ b : Nat, b ∈ g.get_moves ↔
      b < 9 ∧
        (g.board.x_board.board ||| g.board.o_board.board).testBit b =
          false) ∧
    (g.board.is_filled = true → g.get_moves = []) := by
  refine ⟨(List.pairwise_lt_range 9).filter _, ?_, ?_⟩
  · intro b
    simp only [TicTacToeGame.get_moves, List.mem_filter, List.mem_range,
      get_bit_eq_zero, Bool.not_eq_true', BitBoard.bor]
  · intro hf
    have hu : g.board.x_board.bor g.board.o_board = FILLED_BOARD :=
      of_decide_eq_true hf
    unfold TicTacToeGame.get_moves
    rw [hu]
    decide

/-- Witness for C3's amended claim at a full board. -/
theorem C3_get_moves_spec_witness :
    TicTacToeBoard.is_filled ⟨⟨0b111111111⟩, ⟨0⟩⟩ = true ∧
    TicTacToeGame.get_moves
      ⟨⟨⟨0b111111111⟩, ⟨0⟩⟩, PlayerSign.X, GameStatus.StillGoing⟩ = [] :=
  ⟨by decide, (C3_get_moves_spec _).2.2 (by decide)⟩

/-- The eight win-line patterns exactly as the spec writes them (rows
top→bottom, then columns left→right, then the two diagonals); transcribed
from the spec's words for the refinement comparison with `WON_BOARDS`. -/
def specWinLines : List Nat :=
  [0b111000000, 0b000111000, 0b000000111,
   0b100100100, 0b010010010, 0b001001001,
   0b100010001, 0b001010100]

/-- C4: the code's win table matches the spec's literal bit patterns
entry for entry, and the scan performed by `get_status` declares a
mark-set winning exactly when some table line `L` satisfies
`markSet AND L = L`. -/
theorem C4_win_table_and_rule :
    WON_BOARDS.map BitBoard.board = specWinLines ∧
    ∀ mask : BitBoard,
      (WON_BOARDS.any (fun bs => decide (mask.band bs = bs)) = true ↔
        ∃ L ∈ specWinLines, mask.board &&& L = L) := by
  have hmap : WON_BOARDS.map BitBoard.board = specWinLines := by decide
  refine ⟨hmap, fun mask => ?_⟩
  rw [List.any_eq_true]
  constructor
  · rintro ⟨bs, hbs, hd⟩
    refine ⟨bs.board, ?_, (BitBoard.board_inj _ _).mp (of_decide_eq_true hd)⟩
    rw [← hmap]
    exact List.mem_map.mpr ⟨bs, hbs, rfl⟩
  · rintro ⟨L, hL, hand⟩
    rw [← hmap] at hL
    obtain ⟨bs, hbs, rfl⟩ := List.mem_map.mp hL
    exact ⟨bs, hbs, decide_eq_true ((BitBoard.board_inj _ _).mpr hand)⟩

/-- Boards reachable from the empty board through the two placement
operations. -/
inductive ReachableBoard : TicTacToeBoard → Prop where
  | init : ReachableBoard TicTacToeBoard.new
  | placeX (b : TicTacToeBoard) (p : Nat) (c : TicTacToeBoard) :
      ReachableBoard b → b.place_on_x_board p = some c → ReachableBoard c
  | placeO (b : TicTacToeBoard) (p : Nat) (c : TicTacToeBoard) :
      ReachableBoard b → b.place_on_o_board p = some c → ReachableBoard c

/-- Adding a bit that is outside both masks keeps the masks disjoint,
whichever side it is added to. -/
theorem disjoint_after_or (x o p : Nat) (hdisj : x &&& o = 0)
    (hfree : (x ||| o).testBit p = false) :
    (x ||| (1 <<< p)) &&& o = 0 ∧ x &&& (o ||| (1 <<< p)) = 0 := by
  rw [Nat.shiftLeft_eq, one_mul]
  rw [Nat.testBit_lor, Bool.or_eq_false_iff] at hfree
  obtain ⟨hx, ho⟩ := hfree
  have hpt : ∀ i, (x.testBit i && o.testBit i) = false := by
    intro i
    have := congrArg (fun n => n.testBit i) hdisj
    simpa [Nat.testBit_land, Nat.zero_testBit] using this
  constructor <;> apply Nat.eq_of_testBit_eq <;> intro i <;>
    simp only [Nat.testBit_land, Nat.testBit_lor, Nat.zero_testBit]
  · rcases eq_or_ne i p with rfl | hne
    · simp [ho]
    · simp [Nat.testBit_two_pow_of_ne (Ne.symm hne), hpt i]
  · rcases eq_or_ne i p with rfl | hne
    · simp [hx]
    · simp [Nat.testBit_two_pow_of_ne (Ne.symm hne), hpt i]

/-- A successful `place_on_x_board` on a board with disjoint masks
yields a board with disjoint masks. -/
theorem place_x_disjoint (b c : TicTacToeBoard) (p : Nat)
    (hdisj : b.x_board.band b.o_board = EMPTY_BOARD)
    (h : b.place_on_x_board p = some c) :
    c.x_board.band c.o_board = EMPTY_BOARD := by
  rcases b with ⟨⟨x⟩, ⟨o⟩⟩
  have hd : x &&& o = 0 := congrArg BitBoard.board hdisj
  rw [TicTacToeBoard.place_on_x_board] at h
  cases hap : TicTacToeBoard.already_played ⟨⟨x⟩, ⟨o⟩⟩ p
  · rw [hap, if_neg (by decide)] at h
    injection h with h2
    subst h2
    have hfree : (x ||| o).testBit p = false := by
      have hq := already_played_eq_testBit ⟨⟨x⟩, ⟨o⟩⟩ p
      rw [hap] at hq
      exact hq.symm
    exact (BitBoard.board_inj _ _).mpr (disjoint_after_or x o p hd hfree).1
  · rw [hap, if_pos rfl] at h
    cases h

/-- A successful `place_on_o_board` on a board with disjoint masks
yields a board with disjoint masks. -/
theorem place_o_disjoint (b c : TicTacToeBoard) (p : Nat)
    (hdisj : b.x_board.band b.o_board = EMPTY_BOARD)
    (h : b.place_on_o_board p = some c) :
    c.x_board.band c.o_board = EMPTY_BOARD := by
  rcases b with ⟨⟨x⟩, ⟨o⟩⟩
  have hd : x &&& o = 0 := congrArg BitBoard.board hdisj
  rw [TicTacToeBoard.place_on_o_board] at h
  cases hap : TicTacToeBoard.already_played ⟨⟨x⟩, ⟨o⟩⟩ p
  · rw [hap, if_neg (by decide)] at h
    injection h with h2
    subst h2
    have hfree : (x ||| o).testBit p = false := by
      have hq := already_played_eq_testBit ⟨⟨x⟩, ⟨o⟩⟩ p
      rw [hap] at hq
      exact hq.symm
    exact (BitBoard.board_inj _ _).mpr (disjoint_after_or x o p hd hfree).2
  · rw [hap, if_pos rfl] at h
    cases h

/-- Either placement operation, when it succeeds on a board with
disjoint masks, yields a board with disjoint masks. -/
theorem place_preserves_disjoint (b c : TicTacToeBoard) (p : Nat)
    (hdisj : b.x_board.band b.o_board = EMPTY_BOARD)
    (h : b.place_on_x_board p = some c ∨ b.place_on_o_board p = some c) :
    c.x_board.band c.o_board = EMPTY_BOARD := by
  rcases h with h | h
  · exact place_x_disjoint b c p hdisj h
  · exact place_o_disjoint b c p hdisj h

/-- C5: every board reachable from the empty board via the placement
operations has disjoint player masks (`x_board AND o_board` is the zero
mask), and both placement operations preserve this disjointness. -/
theorem C5_masks_disjoint :
    (∀ b : TicTacToeBoard, ReachableBoard b →
      b.x_board.band b.o_board = EMPTY_BOARD) ∧
    (∀ b c : TicTacToeBoard, ∀ p : Nat,
      b.x_board.band b.o_board = EMPTY_BOARD →
      (b.place_on_x_board p = some c ∨ b.place_on_o_board p = some c) →
      c.x_board.band c.o_board = EMPTY_BOARD) := by
  refine ⟨?_, place_preserves_disjoint⟩
  intro b hb
  induction hb with
  | init => decide
  | placeX b p c hb hpl ih =>
    exact place_preserves_disjoint b c p ih (Or.inl hpl)
  | placeO b p c hb hpl ih =>
    exact place_preserves_disjoint b c p ih (Or.inr hpl)

/-- Witness for C5 at the board reached by X playing cell index 0 and O
playing cell index 1. -/
theorem C5_masks_disjoint_witness :
    (⟨⟨1⟩, ⟨2⟩⟩ : TicTacToeBoard).x_board.band
      (⟨⟨1⟩, ⟨2⟩⟩ : TicTacToeBoard).o_board = EMPTY_BOARD :=
  C5_masks_disjoint.1 ⟨⟨1⟩, ⟨2⟩⟩
    (ReachableBoard.placeO ⟨⟨1⟩, ⟨0⟩⟩ 1 ⟨⟨1⟩, ⟨2⟩⟩
      (ReachableBoard.placeX TicTacToeBoard.new 0 ⟨⟨1⟩, ⟨0⟩⟩
        ReachableBoard.init (by decide))
      (by decide))

/-- C6 counterexample: a full board on which both X (top row) and O
(middle row) hold a complete win-line.  O is "a player" whose mark-set
contains a win-line on a full board, yet the computed outcome is `XWon`,
not O's win — the X scan runs first. -/
theorem C6_double_win_cex :
    WON_BOARDS.any
        (fun bs => decide (BitBoard.band ⟨0b000111011⟩ bs = bs)) = true ∧
    TicTacToeBoard.is_filled ⟨⟨0b111000100⟩, ⟨0b000111011⟩⟩ = true ∧
    TicTacToeGame.get_status
        ⟨⟨⟨0b111000100⟩, ⟨0b000111011⟩⟩, PlayerSign.X,
          GameStatus.StillGoing⟩ = GameStatus.XWon ∧
    GameStatus.XWon ≠ GameStatus.OWon := by decide

/-- C6 (amended): on a full board the win scans run before the draw
check: X's line makes the outcome `XWon`, O's line makes it `OWon` when
X has none (X's scan wins the tie on the unreachable double-win boards),
and the outcome is never `Draw` while either player holds a line. -/
theorem C6_win_before_draw (g : TicTacToeGame)
    (_hfull : g.board.is_filled = true) :
    (WON_BOARDS.any
        (fun bs => decide (g.board.x_board.band bs = bs)) = true →
      g.get_status = GameStatus.XWon) ∧
    (WON_BOARDS.any
        (fun bs => decide (g.board.x_board.band bs = bs)) = false →
      WON_BOARDS.any
        (fun bs => decide (g.board.o_board.band bs = bs)) = true →
      g.get_status = GameStatus.OWon) ∧
    ((WON_BOARDS.any (fun bs => decide (g.board.x_board.band bs = bs)) ||
      WON_BOARDS.any
        (fun bs => decide (g.board.o_board.band bs = bs))) = true →
      g.get_status ≠ GameStatus.Draw) := by
  cases hx : WON_BOARDS.any
      (fun bs => decide (g.board.x_board.band bs = bs)) <;>
    cases ho : WON_BOARDS.any
        (fun bs => decide (g.board.o_board.band bs = bs)) <;>
      simp [TicTacToeGame.get_status, hx, ho]

/-- Witness for C6's amended claim at a concrete full board where only X
holds a line. -/
theorem C6_win_before_draw_witness :
    TicTacToeBoard.is_filled ⟨⟨0b111010100⟩, ⟨0b000101011⟩⟩ = true ∧
    TicTacToeGame.get_status
      ⟨⟨⟨0b111010100⟩, ⟨0b000101011⟩⟩, PlayerSign.O, GameStatus.XWon⟩ =
      GameStatus.XWon :=
  ⟨by decide, (C6_win_before_draw _ (by decide)).1 (by decide)⟩

/-- C7: the initial state has X to move, and every accepted `make_play`
returns a state whose current player is the other one. -/
theorem C7_turn_alternation :
    TicTacToeGame.new.current_player = PlayerSign.X ∧
    ∀ (g : TicTacToeGame) (p : Nat) (g' : TicTacToeGame),
      g.make_play p = MakePlayResult.newGame g' →
      g'.current_player = g.current_player.other :=
  ⟨rfl, fun _ _ _ h => (make_play_newGame_elim h).2.2.2.2.1⟩

/-- Witness for C7: the accepted first move at placement 1 hands the
turn from X to O. -/
theorem C7_turn_alternation_witness :
    TicTacToeGame.make_play TicTacToeGame.new 1 =
      MakePlayResult.newGame
        ⟨⟨⟨1⟩, ⟨0⟩⟩, PlayerSign.O, GameStatus.StillGoing⟩ ∧
    (⟨⟨⟨1⟩, ⟨0⟩⟩, PlayerSign.O,
        GameStatus.StillGoing⟩ : TicTacToeGame).current_player =
      TicTacToeGame.new.current_player.other :=
  ⟨by decide, C7_turn_alternation.2 TicTacToeGame.new 1 _ (by decide)⟩

/-- C8: whenever the outcome recomputed from the board is terminal,
`make_play` rejects every placement without producing a new state. -/
theorem C8_game_over_rejects (g : TicTacToeGame) (p : Nat)
    (h : g.get_status ≠ GameStatus.StillGoing) :
    g.make_play p = MakePlayResult.noGame := by
  rw [TicTacToeGame.make_play, if_pos h]

/-- Witness for C8 at a state whose board X has already won. -/
theorem C8_game_over_rejects_witness :
    TicTacToeGame.get_status
        ⟨⟨⟨0b111000000⟩, ⟨0b000000011⟩⟩, PlayerSign.O, GameStatus.XWon⟩ ≠
      GameStatus.StillGoing ∧
    TicTacToeGame.make_play
        ⟨⟨⟨0b111000000⟩, ⟨0b000000011⟩⟩, PlayerSign.O, GameStatus.XWon⟩ 5 =
      MakePlayResult.noGame :=
  ⟨by decide, C8_game_over_rejects _ 5 (by decide)⟩

/-- C9: for a cell index in 0..8, `already_played` is occupancy in
either mask; placement on an occupied cell fails on both boards, and on
a free cell each placement returns a board with exactly that bit added
to the chosen mask and the other mask untouched. -/
theorem C9_place_frame (b : TicTacToeBoard) (p : Nat) (hp : p < 9) :
    (b.already_played p =
      (b.x_board.board.testBit p || b.o_board.board.testBit p)) ∧
    (b.already_played p = true →
      b.place_on_x_board p = none ∧ b.place_on_o_board p = none) ∧
    (b.already_played p = false →
      ∃ bx, b.place_on_x_board p = some bx ∧ bx.o_board = b.o_board ∧
        ∀ i, bx.x_board.board.testBit i =
          (b.x_board.board.testBit i || decide (i = p))) ∧
    (b.already_played p = false →
      ∃ bo, b.place_on_o_board p = some bo ∧ bo.x_board = b.x_board ∧
        ∀ i, bo.o_board.board.testBit i =
          (b.o_board.board.testBit i || decide (i = p))) := by
  refine ⟨by rw [already_played_eq_testBit, Nat.testBit_lor], ?_, ?_, ?_⟩
  · intro hap
    constructor <;>
      first
      | rw [TicTacToeBoard.place_on_x_board, if_pos hap]
      | rw [TicTacToeBoard.place_on_o_board, if_pos hap]
  · intro hap
    refine ⟨⟨b.x_board.borU (1 <<< p), b.o_board⟩, ?_, rfl, ?_⟩
    · rw [TicTacToeBoard.place_on_x_board, if_neg (by rw [hap]; decide)]
    · intro i
      show (b.x_board.board ||| (1 <<< p)).testBit i = _
      rw [Nat.shiftLeft_eq, one_mul, Nat.testBit_lor]
      rcases eq_or_ne i p with rfl | hne
      · simp [Nat.testBit_two_pow_self]
      · simp [Nat.testBit_two_pow_of_ne (Ne.symm hne), hne]
  · intro hap
    refine ⟨⟨b.x_board, b.o_board.borU (1 <<< p)⟩, ?_, rfl, ?_⟩
    · rw [TicTacToeBoard.place_on_o_board, if_neg (by rw [hap]; decide)]
    · intro i
      show (b.o_board.board ||| (1 <<< p)).testBit i = _
      rw [Nat.shiftLeft_eq, one_mul, Nat.testBit_lor]
      rcases eq_or_ne i p with rfl | hne
      · simp [Nat.testBit_two_pow_self]
      · simp [Nat.testBit_two_pow_of_ne (Ne.symm hne), hne]

/-- Witness for C9 at the board with X on cells 0 and 2, O on cell 1,
placing at the free cell index 4. -/
theorem C9_place_frame_witness :
    4 < 9 ∧
    ((⟨⟨5⟩, ⟨2⟩⟩ : TicTacToeBoard).already_played 4 =
      ((5 : Nat).testBit 4 || (2 : Nat).testBit 4)) ∧
    ((⟨⟨5⟩, ⟨2⟩⟩ : TicTacToeBoard).already_played 4 = true →
      TicTacToeBoard.place_on_x_board ⟨⟨5⟩, ⟨2⟩⟩ 4 = none ∧
      TicTacToeBoard.place_on_o_board ⟨⟨5⟩, ⟨2⟩⟩ 4 = none) ∧
    ((⟨⟨5⟩, ⟨2⟩⟩ : TicTacToeBoard).already_played 4 = false →
      ∃ bx, TicTacToeBoard.place_on_x_board ⟨⟨5⟩, ⟨2⟩⟩ 4 = some bx ∧
        bx.o_board = (⟨⟨5⟩, ⟨2⟩⟩ : TicTacToeBoard).o_board ∧
        ∀ i, bx.x_board.board.testBit i =
          ((5 : Nat).testBit i || decide (i = 4))) ∧
    ((⟨⟨5⟩, ⟨2⟩⟩ : TicTacToeBoard).already_played 4 = false →
      ∃ bo, TicTacToeBoard.place_on_o_board ⟨⟨5⟩, ⟨2⟩⟩ 4 = some bo ∧
        bo.x_board = (⟨⟨5⟩, ⟨2⟩⟩ : TicTacToeBoard).x_board ∧
        ∀ i, bo.o_board.board.testBit i =
          ((2 : Nat).testBit i || decide (i = 4))) :=
  ⟨by decide, C9_place_frame ⟨⟨5⟩, ⟨2⟩⟩ 4 (by decide)⟩

/-- Game states reachable from the initial state through accepted
`make_play` calls. -/
inductive ReachableGame : TicTacToeGame → Prop where
  | init : ReachableGame TicTacToeGame.new
  | step (g : TicTacToeGame) (p : Nat) (g' : TicTacToeGame) :
      ReachableGame g → g.make_play p = MakePlayResult.newGame g' →
      ReachableGame g'

/-- C10: on every reachable state the cached `status` field equals the
outcome recomputed from the board by `get_status`, and consequently
`is_over` agrees with the recomputed outcome. -/
theorem C10_status_cache_consistent (g : TicTacToeGame)
    (h : ReachableGame g) :
    g.status = g.get_status ∧
    g.is_over = decide (g.get_status ≠ GameStatus.StillGoing) := by
  induction h with
  | init => exact ⟨by decide, by decide⟩
  | step g p g' hg hplay ih =>
    have h1 := (make_play_newGame_elim hplay).2.2.2.2.2
    refine ⟨h1, ?_⟩
    rw [TicTacToeGame.is_over, TicTacToeGame.current_status, h1]

/-- Witness for C10 at the reachable state after X's first move on
placement 1. -/
theorem C10_status_cache_consistent_witness :
    (⟨⟨⟨1⟩, ⟨0⟩⟩, PlayerSign.O,
        GameStatus.StillGoing⟩ : TicTacToeGame).status =
      (⟨⟨⟨1⟩, ⟨0⟩⟩, PlayerSign.O,
          GameStatus.StillGoing⟩ : TicTacToeGame).get_status :=
  (C10_status_cache_consistent _
    (ReachableGame.step TicTacToeGame.new 1 _ ReachableGame.init
      (by decide))).1

end RustyTacToe
